import Mathlib

/-!
# Verification of `golangpub/types`

A shallow embedding of the repository's code, and theorems settling the
frozen claims about it.

Part I embeds `m.go`: the loosely-typed map `M` with its accessor methods
(`Get`, `String`, `SetNX`, `AddMap`, `Remove`, `Keep`) and its database
value/scan adapters (`Value`, `Scan`).

Part II models the polymorphic envelope (`Any`) with its runtime type
registry, encoder and decoder. The implementation of that core is not
among the source files (only its test file is), so it is modelled from
the specification document, as marked on each definition.
-/

namespace Types

/-- A JSON document tree: the textual wire form produced by `json.Marshal`
and consumed by `json.Unmarshal`, abstracted to its parse tree. Numbers are
abstracted to integers (no claim involves fractional values). -/
inductive Json where
  | null
  | bool (b : Bool)
  | num (n : Int)
  | str (s : String)
  | arr (l : List Json)
  | obj (o : List (String × Json))

/-- A Go `interface{}` value as storable in an `M`: nil, a string, a
number (`num` stands for ordinary numeric values such as `float64`/`int`,
`jsonNum` for a `json.Number`), a boolean, a slice/array, or a nested
`map[string]interface{}`. -/
inductive GoVal where
  | nil
  | str (s : String)
  | num (n : Int)
  | jsonNum (n : Int)
  | bool (b : Bool)
  | arr (l : List GoVal)
  | obj (o : List (String × GoVal))

/-- The type `M` of m.go line 27 (its comment: a special map which
provides convenient methods), modelled as an association list from
string keys to Go values. -/
abbrev M := List (String × GoVal)

/-- Go map indexing `m[key]` with its comma-ok form: `some v` when the key
is present, `none` otherwise. -/
def mfind (m : M) (k : String) : Option GoVal :=
  match m with
  | [] => none
  | (k', v) :: t => if k = k' then some v else mfind t k

/-- Go map indexing `m[key]` without the ok flag: the zero value `nil`
stands in for an absent key. -/
def mindex (m : M) (k : String) : GoVal :=
  (mfind m k).getD .nil

/-- Embedding of `func (m M) Get(key string) interface{}` (m.go lines 49-65): reads
`m[key]`; nil yields nil; a slice or array yields its first element, or
nil when empty; anything else is returned as is. -/
def M.get (m : M) (k : String) : GoVal :=
  match mindex m k with
  | .nil => .nil
  | .arr l =>
    match l with
    | [] => .nil
    | x :: _ => x
  | v => v

/-- Embedding of `func (m M) String(key string) string` (m.go lines 80-89): a string
value is returned as is, a `json.Number` as its literal text (abstracted
here to the decimal rendering of the integer), anything else as `""`. -/
def M.string (m : M) (k : String) : String :=
  match M.get m k with
  | .str s => s
  | .jsonNum n => toString n
  | _ => ""

/-- Embedding of `func (m M) SetNX(k string, v interface{})` (m.go lines 421-429):
returns immediately when `v` is nil or the key is already present;
otherwise inserts the binding. -/
def M.setNX (m : M) (k : String) (v : GoVal) : M :=
  match v with
  | .nil => m
  | _ =>
    if (mfind m k).isSome then m
    else (k, v) :: m

/-- Embedding of `func (m M) AddMap(val M)` (m.go lines 431-435): `SetNX` of every
binding of `val` into `m`. -/
def M.addMap (m : M) (val : M) : M :=
  val.foldl (fun acc kv => M.setNX acc kv.1 kv.2) m

/-- Embedding of `func indexOfStr(l []string, s string) int` (m.go lines 486-493),
with the running index made explicit. -/
def indexOfStrAux (l : List String) (s : String) (i : Nat) : Int :=
  match l with
  | [] => -1
  | str :: rest => if s = str then Int.ofNat i else indexOfStrAux rest s (i + 1)

/-- Embedding of `func indexOfStr(l []string, s string) int`: index of the first
occurrence of `s` in `l`, or `-1`. -/
def indexOfStr (l : List String) (s : String) : Int :=
  indexOfStrAux l s 0

/-- Embedding of `func (m M) Remove(keys ...string)` (m.go lines 445-451): deletes
every key `k` of `m` with `indexOfStr(keys, k) < 0`. -/
def M.remove (m : M) (keys : List String) : M :=
  m.filter (fun kv => !decide (indexOfStr keys kv.1 < 0))

/-- Embedding of `func (m M) Keep(keys ...string)` (m.go lines 453-459): deletes
every key `k` of `m` with `indexOfStr(keys, k) < 0`. -/
def M.keep (m : M) (keys : List String) : M :=
  m.filter (fun kv => !decide (indexOfStr keys kv.1 < 0))

mutual
/-- Model of `json.Marshal` on one `interface{}` value: nil renders as null, a
`json.Number` as its numeric literal, a slice as an array, a nested map
as an object. -/
def marshalVal : GoVal → Json
  | .nil => .null
  | .str s => .str s
  | .num n => .num n
  | .jsonNum n => .num n
  | .bool b => .bool b
  | .arr l => .arr (marshalList l)
  | .obj o => .obj (marshalObj o)
def marshalList : List GoVal → List Json
  | [] => []
  | v :: t => marshalVal v :: marshalList t
def marshalObj : List (String × GoVal) → List (String × Json)
  | [] => []
  | (k, v) :: t => (k, marshalVal v) :: marshalObj t
end

/-- Model of `json.Marshal` applied to an `M`: a map renders as a JSON object. -/
def marshalM (m : M) : Json :=
  .obj (marshalObj m)

mutual
/-- Model of `json.Unmarshal` of one JSON value into an `interface{}` slot: a JSON
number becomes an ordinary number (Go's default is `float64`, modelled by
`GoVal.num`), an array a slice, an object a nested map. -/
def jsonToGoVal : Json → GoVal
  | .null => .nil
  | .bool b => .bool b
  | .num n => .num n
  | .str s => .str s
  | .arr l => .arr (jsonToGoList l)
  | .obj o => .obj (jsonToGoObj o)
def jsonToGoList : List Json → List GoVal
  | [] => []
  | j :: t => jsonToGoVal j :: jsonToGoList t
def jsonToGoObj : List (String × Json) → List (String × GoVal)
  | [] => []
  | (k, j) :: t => (k, jsonToGoVal j) :: jsonToGoObj t
end

/-- Go map assignment `m[k] = v`: replaces the existing binding for `k`,
or appends a new one. -/
def msetVal (m : M) (k : String) (v : GoVal) : M :=
  match m with
  | [] => [(k, v)]
  | (k', v') :: t => if k = k' then (k, v) :: t else (k', v') :: msetVal t k v

/-- Model of `json.Unmarshal` of a JSON object into an existing (non-nil) map: each
member of the object is decoded and stored into the map, keeping the map's
other entries (Go's documented map-merge behaviour). -/
def unmarshalInto (m : M) (o : List (String × Json)) : M :=
  o.foldl (fun acc kv => msetVal acc kv.1 (jsonToGoVal kv.2)) m

/-- A byte string, abstracted by how `json.Unmarshal` reads it: empty,
not valid JSON at all, or the valid JSON document it parses to. -/
inductive Bytes where
  | empty
  | malformed
  | wf (j : Json)

/-- Embedding of `func (m *M) Scan(src interface{}) error` (m.go lines 461-480): a nil
source or empty bytes succeed without touching the map; otherwise the
bytes are `json.Unmarshal`ed into the map. Unmarshal accepts a JSON
object (merged into the map) and also the JSON literal null, which per
Go's documentation sets the map to nil (modelled as the empty map); any
other document kind is an unmarshal error. The byte source is modelled
already converted by `conv.ToBytes` (the claim restricts attention to
byte inputs). -/
def M.scan (m : M) (src : Option Bytes) : Except String M :=
  match src with
  | none => .ok m
  | some .empty => .ok m
  | some .malformed => .error "unmarshal"
  | some (.wf j) =>
    match j with
    | .obj o => .ok (unmarshalInto m o)
    | .null => .ok []
    | _ => .error "unmarshal"

/-- Embedding of `func (m M) Value() (driver.Value, error)` (m.go lines 482-484):
returns `json.Marshal(m)`. -/
def M.value (m : M) : Except String Json :=
  .ok (marshalM m)

/-- Modelled from the spec: the error taxonomy of §7 for the `Any` core,
whose implementation file is missing from the sources. -/
inductive AnyError where
  | unregisteredType
  | unknownIdentifier
  | malformedEnvelope
  | typeMismatch

/-- Modelled from the spec: the descriptor kinds of §3 for the missing
`Any` core: {Primitive, AliasedPrimitive, Struct, Unknown}. -/
inductive TKind where
  | primitive
  | aliasedPrimitive
  | struct
  | unknown

mutual
/-- Modelled from the spec: a value registrable with the missing `Any`
core. Builtin primitives are text strings, signed integers and booleans
(the floating-point builtin of §4.1 is omitted: no claim concerns it);
`aliased` is a named type whose representation is a primitive
(AliasedPrimitive of §3); `struct` is a named record of fields. -/
inductive AnyVal where
  | str (s : String)
  | int (n : Int)
  | bool (b : Bool)
  | aliased (name : String) (u : AnyVal)
  | struct (name : String) (fields : AnyFields)
/-- Modelled from the spec: the ordered named fields of a struct-kind
value of the missing `Any` core. -/
inductive AnyFields where
  | fnil
  | fcons (name : String) (v : AnyVal) (rest : AnyFields)
end

/-- Modelled from the spec: the canonical identifier of a value's runtime
type (§3: derived from the type's name; builtins get fixed names). -/
def typeNameOf : AnyVal → String
  | .str _ => "string"
  | .int _ => "int"
  | .bool _ => "bool"
  | .aliased n _ => n
  | .struct n _ => n

/-- Modelled from the spec: the descriptor kind of a value's runtime type
for the missing `Any` core. -/
def kindOf : AnyVal → TKind
  | .str _ => .primitive
  | .int _ => .primitive
  | .bool _ => .primitive
  | .aliased _ _ => .aliasedPrimitive
  | .struct _ _ => .struct

/-- Modelled from the spec: a Type Descriptor of §3 for the missing `Any`
core — identifier, kind, and the `zeroValueFactory` capability, carried
as a sample value whose shape guides decode-time population. -/
structure Descriptor where
  identifier : String
  kind : TKind
  sample : AnyVal

/-- Modelled from the spec: the Registry table of §3 for the missing
`Any` core, passed explicitly per the design note of §9. Later
registrations are consulted first, giving the overwrite-last-wins
re-registration policy of §7. -/
def Registry := List Descriptor

/-- Modelled from the spec: `DescriptorFor(identifier)` of §4.1 for the
missing `Any` core. -/
def descriptorFor (reg : Registry) (id : String) : Option Descriptor :=
  match reg with
  | [] => none
  | d :: t => if d.identifier = id then some d else descriptorFor t id

/-- Modelled from the spec: `Register(sample value)` of §4.1 (the test
file calls it `types.RegisterAnyType`), for the missing `Any` core:
computes the canonical identifier and inserts the descriptor. -/
def RegisterAnyType (reg : Registry) (sample : AnyVal) : Registry :=
  ⟨typeNameOf sample, kindOf sample, sample⟩ :: reg

/-- Modelled from the spec: the registry pre-populated with the builtin
primitive descriptors of §4.1 (text string, signed integer, boolean). -/
def builtinRegistry : Registry :=
  RegisterAnyType (RegisterAnyType (RegisterAnyType [] (.str "")) (.int 0)) (.bool false)

/-- Modelled from the spec: `IdentifierFor(value)` of §4.1 for the
missing `Any` core: the most specific registration wins, and an aliased
primitive whose own name is unregistered falls back to the builtin
identifier of its underlying primitive. -/
def identifierFor (reg : Registry) : AnyVal → Option String
  | .aliased n u =>
    if (descriptorFor reg n).isSome then some n else identifierFor reg u
  | v => if (descriptorFor reg (typeNameOf v)).isSome then some (typeNameOf v) else none

/-- Modelled from the spec: the Envelope of §3 for the missing `Any`
core — a type identifier paired with the wrapped value. -/
structure Any where
  typeIdentifier : String
  value : AnyVal

/-- Modelled from the spec: `New(value) -> Envelope` of §4.2 (the test
file calls it `types.NewAny`), for the missing `Any` core: fails with
`UnregisteredTypeError` when the value's runtime type, after resolving
aliasing, has no Registry entry. -/
def NewAny (reg : Registry) (v : AnyVal) : Except AnyError Any :=
  match identifierFor reg v with
  | some id => .ok ⟨id, v⟩
  | none => .error .unregisteredType

mutual
/-- Modelled from the spec: the Encoder's value payload of §4.3 for the
missing `Any` core: primitives in native form, an aliased primitive as
the primitive form of its underlying type, a struct as a nested record
of its recursively encoded fields. -/
def encodePlain : AnyVal → Json
  | .str s => .str s
  | .int n => .num n
  | .bool b => .bool b
  | .aliased _ u => encodePlain u
  | .struct _ f => .obj (encodeFieldsJson f)
/-- Modelled from the spec: field-by-field encoding of a struct-kind
value's fields for the missing `Any` core. -/
def encodeFieldsJson : AnyFields → List (String × Json)
  | .fnil => []
  | .fcons k v r => (k, encodePlain v) :: encodeFieldsJson r
end

/-- Modelled from the spec: the Encoder of §4.3 for the missing `Any`
core: an envelope serializes to a record with exactly two named fields,
the type identifier first, then the value payload. -/
def encodeAny (e : Any) : Json :=
  .obj [("@type", .str e.typeIdentifier), ("value", encodePlain e.value)]

/-- Modelled from the spec: §4.3 — a sequence of Envelopes is encoded as
an ordered sequence of envelope-records, one per element. -/
def encodeAnyList (l : List Any) : Json :=
  .arr (l.map encodeAny)

/-- Association lookup in a JSON object's member list. -/
def jfind (l : List (String × Json)) (k : String) : Option Json :=
  match l with
  | [] => none
  | (k', j) :: t => if k = k' then some j else jfind t k

mutual
/-- Modelled from the spec: step 3 of the Decoder algorithm of §4.4 for
the missing `Any` core, directed by the descriptor's sample (its
`zeroValueFactory`): a primitive parses directly, an aliased primitive
parses as its underlying primitive and is converted back into the named
type, a struct is populated field by field from the nested record. A
payload whose shape disagrees with the sample is a `TypeMismatchError`. -/
def decodeWith : AnyVal → Json → Except AnyError AnyVal
  | .str _, .str s => .ok (.str s)
  | .int _, .num n => .ok (.int n)
  | .bool _, .bool b => .ok (.bool b)
  | .aliased n u0, j => (decodeWith u0 j).map (fun u => .aliased n u)
  | .struct n f0, .obj jf => (decodeFieldsWith f0 jf).map (fun f => .struct n f)
  | _, _ => .error .typeMismatch
/-- Modelled from the spec: decode-time population of a struct-kind
value's fields for the missing `Any` core, each field decoded against
its shape in the descriptor's sample. -/
def decodeFieldsWith : AnyFields → List (String × Json) → Except AnyError AnyFields
  | .fnil, [] => .ok .fnil
  | .fcons k z r, (k', j) :: jt =>
    if k = k' then
      match decodeWith z j, decodeFieldsWith r jt with
      | .ok v, .ok vs => .ok (.fcons k v vs)
      | .error e, _ => .error e
      | _, .error e => .error e
    else .error .typeMismatch
  | _, _ => .error .typeMismatch
end

/-- Modelled from the spec: the Decoder of §4.4 for the missing `Any`
core: parse the outer record, extract the type-identifier field (absence
is a `MalformedEnvelopeError`), resolve it via the Registry (failure is
an `UnknownIdentifierError`, a hard failure), decode the value payload
against the descriptor, and wrap the result into a new Envelope carrying
the resolved identifier. -/
def decodeAny (reg : Registry) (j : Json) : Except AnyError Any :=
  match j with
  | .obj fl =>
    match jfind fl "@type" with
    | some (.str id) =>
      match descriptorFor reg id with
      | none => .error .unknownIdentifier
      | some d =>
        match decodeWith d.sample ((jfind fl "value").getD .null) with
        | .ok v => .ok ⟨id, v⟩
        | .error e => .error e
    | _ => .error .malformedEnvelope
  | _ => .error .malformedEnvelope

/-- Modelled from the spec: decoding an ordered sequence of
envelope-records of §4.3/§4.4, order-preserving, every element's failure
propagating. -/
def decodeAnyList (reg : Registry) (j : Json) : Except AnyError (List Any) :=
  match j with
  | .arr js => js.mapM (decodeAny reg)
  | _ => .error .malformedEnvelope

mutual
/-- Modelled from the spec: a value is of the (registered) type described
by a sample when it has the same shape — same constructor, same type
names, and fields matching the sample's field shapes one by one. -/
def Conforms : AnyVal → AnyVal → Bool
  | .str _, .str _ => true
  | .int _, .int _ => true
  | .bool _, .bool _ => true
  | .aliased n u0, .aliased n' u => n = n' && Conforms u0 u
  | .struct n f0, .struct n' f => n = n' && ConformsFields f0 f
  | _, _ => false
/-- Modelled from the spec: field lists matching a sample's field shapes
name by name and shape by shape. -/
def ConformsFields : AnyFields → AnyFields → Bool
  | .fnil, .fnil => true
  | .fcons k z r, .fcons k' v r' => k = k' && Conforms z v && ConformsFields r r'
  | _, _ => false
end

/-- An envelope is well formed for a registry when its identifier
resolves to a descriptor whose sample shape its value matches. -/
def WellFormedAny (reg : Registry) (e : Any) : Prop :=
  ∃ d, descriptorFor reg e.typeIdentifier = some d ∧ Conforms d.sample e.value = true

theorem indexOfStrAux_neg_iff (l : List String) (s : String) :
    ∀ i : Nat, (indexOfStrAux l s i < 0 ↔ s ∉ l) := by
  induction l with
  | nil => intro i; simp [indexOfStrAux]
  | cons hd tl ih =>
    intro i
    by_cases hs : s = hd
    · subst hs
      simp [indexOfStrAux]
    · simp only [indexOfStrAux, if_neg hs, List.mem_cons]
      rw [ih (i + 1)]
      constructor
      · rintro hnot (h | h)
        · exact hs h
        · exact hnot h
      · intro hnot h
        exact hnot (Or.inr h)

theorem indexOfStr_neg_iff (l : List String) (s : String) :
    indexOfStr l s < 0 ↔ s ∉ l :=
  indexOfStrAux_neg_iff l s 0

theorem mfind_remove (m : M) (ks : List String) (k : String) :
    mfind (M.remove m ks) k = if k ∈ ks then mfind m k else none := by
  induction m with
  | nil =>
    simp [M.remove, mfind]
  | cons hd tl ih =>
    obtain ⟨k', v⟩ := hd
    by_cases hk : k' ∈ ks
    · have hp : (!decide (indexOfStr ks k' < 0)) = true := by
        simp [indexOfStr_neg_iff, hk]
      by_cases hkk : k = k'
      · subst hkk
        simp only [M.remove, List.filter_cons, hp, if_pos, mfind, if_pos rfl]
        simp [hk]
      · simp only [M.remove, List.filter_cons, hp, if_pos, mfind, if_neg hkk]
        exact ih
    · have hp : (!decide (indexOfStr ks k' < 0)) = false := by
        simp [indexOfStr_neg_iff, hk]
      by_cases hkk : k = k'
      · subst hkk
        simp only [M.remove, List.filter_cons, hp]
        rw [if_neg (by simp)]
        rw [M.remove] at ih
        rw [ih, if_neg hk]
        simp [mfind, if_pos rfl, hk]
      · simp only [M.remove, List.filter_cons, hp]
        rw [if_neg (by simp)]
        rw [M.remove] at ih
        rw [ih]
        simp [mfind, if_neg hkk]

theorem setNX_present (m : M) (k : String) (v : GoVal)
    (h : (mfind m k).isSome) : M.setNX m k v = m := by
  cases v <;> simp [M.setNX, h]

theorem mfind_setNX_present (m : M) (k k' : String) (v' : GoVal)
    (h : (mfind m k).isSome) : mfind (M.setNX m k' v') k = mfind m k := by
  cases v' with
  | nil => rfl
  | _ =>
    all_goals
      simp only [M.setNX]
      by_cases hp : (mfind m k').isSome
      · simp [hp]
      · have hkk : k ≠ k' := by
          intro he
          subst he
          exact hp h
        simp [hp, mfind, if_neg hkk]

theorem isSome_mfind_setNX (m : M) (k k' : String) (v' : GoVal)
    (h : (mfind m k).isSome) : (mfind (M.setNX m k' v') k).isSome := by
  rw [mfind_setNX_present m k k' v' h]
  exact h

theorem mfind_addMap_present (m : M) (val : M) (k : String)
    (h : (mfind m k).isSome) : mfind (M.addMap m val) k = mfind m k := by
  induction val generalizing m with
  | nil => rfl
  | cons hd tl ih =>
    simp only [M.addMap, List.foldl_cons] at ih ⊢
    rw [ih (M.setNX m hd.1 hd.2) (isSome_mfind_setNX m k hd.1 hd.2 h)]
    exact mfind_setNX_present m k hd.1 hd.2 h

/-- C8: `Remove` and `Keep` are extensionally equal; both delete exactly
the keys of `m` that are not listed in `ks`, so `Remove(ks...)` retains
the listed keys instead of removing them. -/
theorem c8_remove_keep_equal (m : M) (ks : List String) :
    M.remove m ks = M.keep m ks ∧
    ∀ k, mfind (M.remove m ks) k = if k ∈ ks then mfind m k else none :=
  ⟨rfl, fun k => mfind_remove m ks k⟩

/-- C9: when the value stored at `k` is a slice or array, `Get` returns
its first element if it is non-empty and nil otherwise, so the
type-coercion getters built on `Get` (here `String`) operate on the
first element of a slice-valued entry rather than the slice itself. -/
theorem c9_get_first_element (m : M) (k : String) (l : List GoVal)
    (s : String) (rest : List GoVal) :
    (mindex m k = .arr l →
      M.get m k = (match l with | [] => .nil | x :: _ => x)) ∧
    (mindex m k = .arr (.str s :: rest) → M.string m k = s) := by
  constructor
  · intro h
    cases l <;> simp [M.get, h]
  · intro h
    have hg : M.get m k = .str s := by simp [M.get, h]
    simp [M.string, hg]

/-- Closed witness for C9 on a concrete map holding a slice value. -/
theorem c9_witness :
    M.get [("k", .arr [.str "a", .str "b"])] "k" = .str "a" ∧
    M.string [("k", .arr [.str "a", .str "b"])] "k" = "a" := by
  have h := c9_get_first_element [("k", .arr [.str "a", .str "b"])] "k"
    [.str "a", .str "b"] "a" [.str "b"]
  exact ⟨h.1 rfl, h.2 rfl⟩

/-- C10: `SetNX` never overwrites — a nil value or an already-present key
leaves the map unchanged — and consequently `AddMap` only inserts
bindings for keys not already present. -/
theorem c10_setnx_no_overwrite (m : M) (k : String) (v : GoVal) (val : M) :
    M.setNX m k .nil = m ∧
    ((mfind m k).isSome → M.setNX m k v = m) ∧
    ((mfind m k).isSome → mfind (M.addMap m val) k = mfind m k) :=
  ⟨rfl, fun h => setNX_present m k v h, fun h => mfind_addMap_present m val k h⟩

/-- Closed witness for C10 on a concrete map with a present key. -/
theorem c10_witness :
    M.setNX [("a", GoVal.str "x")] "a" .nil = [("a", GoVal.str "x")] ∧
    M.setNX [("a", GoVal.str "x")] "a" (.str "y") = [("a", GoVal.str "x")] ∧
    mfind (M.addMap [("a", GoVal.str "x")] [("a", .str "z"), ("b", .num 1)]) "a"
      = mfind [("a", GoVal.str "x")] "a" := by
  have h := c10_setnx_no_overwrite [("a", GoVal.str "x")] "a" (.str "y")
    [("a", .str "z"), ("b", .num 1)]
  exact ⟨h.1, h.2.1 rfl, h.2.2 rfl⟩

theorem msetVal_absent (m : M) (k : String) (v : GoVal)
    (h : mfind m k = none) : msetVal m k v = m ++ [(k, v)] := by
  induction m with
  | nil => rfl
  | cons hd tl ih =>
    obtain ⟨k', v'⟩ := hd
    by_cases hk : k = k'
    · subst hk
      simp [mfind] at h
    · simp only [mfind, if_neg hk] at h
      simp [msetVal, if_neg hk, ih h]

theorem mfind_append_absent (m : M) (k k' : String) (v : GoVal)
    (h : mfind m k' = none) (hne : k' ≠ k) :
    mfind (m ++ [(k, v)]) k' = none := by
  induction m with
  | nil => simp [mfind, if_neg hne]
  | cons hd tl ih =>
    obtain ⟨k2, v2⟩ := hd
    by_cases hk : k' = k2
    · subst hk
      simp [mfind] at h
    · simp only [mfind, if_neg hk] at h
      simp only [List.cons_append, mfind, if_neg hk]
      exact ih h

theorem unmarshalInto_fresh (o : List (String × Json)) :
    ∀ m : M, (o.map Prod.fst).Nodup →
      (∀ k ∈ o.map Prod.fst, mfind m k = none) →
      unmarshalInto m o = m ++ o.map (fun kv => (kv.1, jsonToGoVal kv.2)) := by
  induction o with
  | nil => intro m _ _; simp [unmarshalInto]
  | cons hd tl ih =>
    intro m hnd hfresh
    obtain ⟨k, j⟩ := hd
    simp only [List.map_cons, List.nodup_cons] at hnd
    have hmk : mfind m k = none := hfresh k (by simp)
    simp only [unmarshalInto, List.foldl_cons] at ih ⊢
    rw [msetVal_absent m k (jsonToGoVal j) hmk]
    rw [ih (m ++ [(k, jsonToGoVal j)]) hnd.2 ?_]
    · simp
    · intro k' hk'
      refine mfind_append_absent m k k' (jsonToGoVal j) (hfresh k' (by simp [hk'])) ?_
      intro he
      subst he
      exact hnd.1 hk'

/-- C7: the database value/scan adapters are plain marshal/unmarshal
pass-throughs: `Value` returns exactly the JSON marshalling of the map,
and `Scan` of non-nil, non-empty bytes succeeds exactly when they are
valid JSON for a map — a JSON object, or the JSON literal null that
`json.Unmarshal` also accepts into a map — and populates the map with
exactly the unmarshalled content: the object's decoded members into a
fresh map, or the nil map for null. -/
theorem c7_value_scan (m : M) (b : Bytes) (o : List (String × Json))
    (hb : b ≠ .empty) :
    M.value m = .ok (marshalM m) ∧
    ((∃ m2, M.scan m (some b) = .ok m2) ↔
      (∃ o2, b = .wf (.obj o2)) ∨ b = .wf .null) ∧
    (b = .wf (.obj o) → (o.map Prod.fst).Nodup →
      M.scan [] (some b) = .ok (o.map (fun kv => (kv.1, jsonToGoVal kv.2)))) ∧
    (b = .wf .null → M.scan m (some b) = .ok []) := by
  refine ⟨rfl, ?_, ?_, ?_⟩
  · cases b with
    | empty => exact absurd rfl hb
    | malformed => simp [M.scan]
    | wf j => cases j <;> simp [M.scan]
  · intro hbo hnd
    subst hbo
    simp only [M.scan]
    rw [unmarshalInto_fresh o [] hnd (by intro k _; rfl)]
    simp
  · intro hbn
    subst hbn
    rfl

/-- Closed witness for C7 on concrete bytes holding a one-member JSON
object, and on the JSON literal null. -/
theorem c7_witness :
    M.value [("z", GoVal.bool true)] = .ok (marshalM [("z", GoVal.bool true)]) ∧
    (∃ m2, M.scan [("z", GoVal.bool true)]
      (some (.wf (.obj [("a", Json.num 1)]))) = .ok m2) ∧
    M.scan [] (some (.wf (.obj [("a", Json.num 1)])))
      = .ok [("a", GoVal.num 1)] ∧
    M.scan [("z", GoVal.bool true)] (some (.wf .null)) = .ok [] := by
  have h := c7_value_scan [("z", GoVal.bool true)] (.wf (.obj [("a", Json.num 1)]))
    [("a", Json.num 1)] (by simp)
  have hn := c7_value_scan [("z", GoVal.bool true)] (.wf .null)
    [("a", Json.num 1)] (by simp)
  refine ⟨h.1, h.2.1.mpr (Or.inl ⟨[("a", Json.num 1)], rfl⟩), ?_, hn.2.2.2 rfl⟩
  have h3 := h.2.2.1 rfl (by simp)
  simpa [jsonToGoVal] using h3

mutual
theorem decodeWith_encodePlain : ∀ (s v : AnyVal), Conforms s v = true →
    decodeWith s (encodePlain v) = Except.ok v
  | .str _, v, h => by
    cases v <;> simp_all [Conforms, decodeWith, encodePlain]
  | .int _, v, h => by
    cases v <;> simp_all [Conforms, decodeWith, encodePlain]
  | .bool _, v, h => by
    cases v <;> simp_all [Conforms, decodeWith, encodePlain]
  | .aliased n u0, v, h => by
    cases v with
    | aliased n2 u =>
      simp only [Conforms, Bool.and_eq_true, decide_eq_true_eq] at h
      obtain ⟨rfl, h2⟩ := h
      simp [encodePlain, decodeWith, decodeWith_encodePlain u0 u h2, Except.map]
    | str s => simp [Conforms] at h
    | int i => simp [Conforms] at h
    | bool b => simp [Conforms] at h
    | struct n2 f => simp [Conforms] at h
  | .struct n f0, v, h => by
    cases v with
    | struct n2 f =>
      simp only [Conforms, Bool.and_eq_true, decide_eq_true_eq] at h
      obtain ⟨rfl, h2⟩ := h
      simp [encodePlain, decodeWith,
        decodeFieldsWith_encodeFieldsJson f0 f h2, Except.map]
    | str s => simp [Conforms] at h
    | int i => simp [Conforms] at h
    | bool b => simp [Conforms] at h
    | aliased n2 u => simp [Conforms] at h

theorem decodeFieldsWith_encodeFieldsJson :
    ∀ (s f : AnyFields), ConformsFields s f = true →
      decodeFieldsWith s (encodeFieldsJson f) = Except.ok f
  | .fnil, .fnil, _ => rfl
  | .fnil, .fcons .., h => by simp [ConformsFields] at h
  | .fcons .., .fnil, h => by simp [ConformsFields] at h
  | .fcons k z r, .fcons k2 v r2, h => by
    simp only [ConformsFields, Bool.and_eq_true, decide_eq_true_eq] at h
    obtain ⟨⟨rfl, hzv⟩, hr⟩ := h
    simp [encodeFieldsJson, decodeFieldsWith,
      decodeWith_encodePlain z v hzv, decodeFieldsWith_encodeFieldsJson r r2 hr]
end

mutual
theorem conforms_of_decodeWith : ∀ (s : AnyVal) (j : Json) (v : AnyVal),
    decodeWith s j = Except.ok v → Conforms s v = true
  | .str _, j, v, h => by
    cases j with
    | str s =>
      simp only [decodeWith, Except.ok.injEq] at h
      subst h
      rfl
    | null => simp [decodeWith] at h
    | bool b => simp [decodeWith] at h
    | num m => simp [decodeWith] at h
    | arr l => simp [decodeWith] at h
    | obj o => simp [decodeWith] at h
  | .int _, j, v, h => by
    cases j with
    | num m =>
      simp only [decodeWith, Except.ok.injEq] at h
      subst h
      rfl
    | null => simp [decodeWith] at h
    | bool b => simp [decodeWith] at h
    | str s => simp [decodeWith] at h
    | arr l => simp [decodeWith] at h
    | obj o => simp [decodeWith] at h
  | .bool _, j, v, h => by
    cases j with
    | bool b =>
      simp only [decodeWith, Except.ok.injEq] at h
      subst h
      rfl
    | null => simp [decodeWith] at h
    | num m => simp [decodeWith] at h
    | str s => simp [decodeWith] at h
    | arr l => simp [decodeWith] at h
    | obj o => simp [decodeWith] at h
  | .aliased n u0, j, v, h => by
    simp only [decodeWith] at h
    cases hd : decodeWith u0 j with
    | error e => rw [hd] at h; simp [Except.map] at h
    | ok u =>
      rw [hd] at h
      simp only [Except.map, Except.ok.injEq] at h
      subst h
      simp [Conforms, conforms_of_decodeWith u0 j u hd]
  | .struct n f0, j, v, h => by
    cases j with
    | obj jf =>
      simp only [decodeWith] at h
      cases hd : decodeFieldsWith f0 jf with
      | error e => rw [hd] at h; simp [Except.map] at h
      | ok f =>
        rw [hd] at h
        simp only [Except.map, Except.ok.injEq] at h
        subst h
        simp [Conforms, conforms_of_decodeFieldsWith f0 jf f hd]
    | null => simp [decodeWith] at h
    | bool b => simp [decodeWith] at h
    | num m => simp [decodeWith] at h
    | str s => simp [decodeWith] at h
    | arr l => simp [decodeWith] at h

theorem conforms_of_decodeFieldsWith :
    ∀ (s : AnyFields) (jf : List (String × Json)) (f : AnyFields),
      decodeFieldsWith s jf = Except.ok f → ConformsFields s f = true
  | .fnil, [], f, h => by
    simp only [decodeFieldsWith, Except.ok.injEq] at h
    subst h
    rfl
  | .fnil, _ :: _, f, h => by simp [decodeFieldsWith] at h
  | .fcons .., [], f, h => by simp [decodeFieldsWith] at h
  | .fcons k z r, (k2, j) :: jt, f, h => by
    simp only [decodeFieldsWith] at h
    by_cases hk : k = k2
    · rw [if_pos hk] at h
      cases hz : decodeWith z j with
      | error e => rw [hz] at h; simp at h
      | ok v =>
        cases hr : decodeFieldsWith r jt with
        | error e => rw [hz, hr] at h; simp at h
        | ok vs =>
          rw [hz, hr] at h
          simp only [Except.ok.injEq] at h
          subst h
          simp [ConformsFields, conforms_of_decodeWith z j v hz,
            conforms_of_decodeFieldsWith r jt vs hr]
    · rw [if_neg hk] at h
      simp at h
end

theorem identifierFor_resolves : ∀ (reg : Registry) (v : AnyVal) (id : String),
    identifierFor reg v = some id → (descriptorFor reg id).isSome
  | reg, .str a, id, h => by
    simp only [identifierFor, typeNameOf] at h
    by_cases hd : (descriptorFor reg "string").isSome
    · rw [if_pos hd] at h
      simp only [Option.some.injEq] at h
      subst h
      exact hd
    · rw [if_neg hd] at h
      exact absurd h (by simp)
  | reg, .int a, id, h => by
    simp only [identifierFor, typeNameOf] at h
    by_cases hd : (descriptorFor reg "int").isSome
    · rw [if_pos hd] at h
      simp only [Option.some.injEq] at h
      subst h
      exact hd
    · rw [if_neg hd] at h
      exact absurd h (by simp)
  | reg, .bool a, id, h => by
    simp only [identifierFor, typeNameOf] at h
    by_cases hd : (descriptorFor reg "bool").isSome
    · rw [if_pos hd] at h
      simp only [Option.some.injEq] at h
      subst h
      exact hd
    · rw [if_neg hd] at h
      exact absurd h (by simp)
  | reg, .struct a f, id, h => by
    simp only [identifierFor, typeNameOf] at h
    by_cases hd : (descriptorFor reg a).isSome
    · rw [if_pos hd] at h
      simp only [Option.some.injEq] at h
      subst h
      exact hd
    · rw [if_neg hd] at h
      exact absurd h (by simp)
  | reg, .aliased n u, id, h => by
    simp only [identifierFor] at h
    by_cases hd : (descriptorFor reg n).isSome
    · rw [if_pos hd] at h
      simp only [Option.some.injEq] at h
      subst h
      exact hd
    · rw [if_neg hd] at h
      exact identifierFor_resolves reg u id h

theorem jfind_typeId (id : String) (p : Json) :
    jfind [("@type", .str id), ("value", p)] "@type" = some (.str id) := by
  simp [jfind]

theorem jfind_value (id : String) (p : Json) :
    jfind [("@type", .str id), ("value", p)] "value" = some p := by
  rw [jfind, if_neg (by decide), jfind, if_pos rfl]

theorem exceptBind_ok {α β ε : Type} (a : α) (f : α → Except ε β) :
    (Except.ok a : Except ε α) >>= f = f a := rfl

theorem decodeAny_encodeAny (reg : Registry) (e : Any)
    (h : WellFormedAny reg e) : decodeAny reg (encodeAny e) = Except.ok e := by
  obtain ⟨d, hd, hc⟩ := h
  obtain ⟨id, v⟩ := e
  simp only [encodeAny, decodeAny, jfind_typeId, jfind_value] at hd ⊢
  rw [hd]
  simp only [Option.getD_some]
  rw [decodeWith_encodePlain d.sample v hc]

/-- C1: for every registered type and every value `v` of it (an envelope
successfully constructed by `New`, whose value matches the registered
descriptor's shape), decoding the encoding of the new envelope yields an
envelope whose unwrapped value is deep-equal to `v` and whose type
identifier equals the one assigned at construction. -/
theorem c1_roundtrip_identity (reg : Registry) (v : AnyVal) (e : Any)
    (hnew : NewAny reg v = Except.ok e) (hwf : WellFormedAny reg e) :
    ∃ e2, decodeAny reg (encodeAny e) = Except.ok e2 ∧
      e2.value = v ∧ e2.typeIdentifier = e.typeIdentifier := by
  have he : e.value = v := by
    simp only [NewAny] at hnew
    cases hi : identifierFor reg v with
    | some id =>
      rw [hi] at hnew
      simp only [Except.ok.injEq] at hnew
      rw [← hnew]
    | none =>
      rw [hi] at hnew
      simp at hnew
  exact ⟨e, decodeAny_encodeAny reg e hwf, he, rfl⟩

/-- Closed witness for C1: the builtin string type at `"hello"`. -/
theorem c1_witness :
    ∃ e2, decodeAny builtinRegistry (encodeAny ⟨"string", .str "hello"⟩)
        = Except.ok e2 ∧
      e2.value = .str "hello" ∧
      e2.typeIdentifier = (Any.mk "string" (.str "hello")).typeIdentifier :=
  c1_roundtrip_identity builtinRegistry (.str "hello") ⟨"string", .str "hello"⟩
    rfl ⟨⟨"string", .primitive, .str ""⟩, rfl, rfl⟩

/-- C2: a value whose runtime type, after resolving aliasing, has no
Registry entry is rejected by envelope construction with
`UnregisteredTypeError` rather than succeeding. -/
theorem c2_unregistered_type_rejected (reg : Registry) (v : AnyVal)
    (h : identifierFor reg v = none) :
    NewAny reg v = Except.error .unregisteredType ∧
    ∀ e, NewAny reg v ≠ Except.ok e := by
  have hne : NewAny reg v = Except.error .unregisteredType := by
    simp [NewAny, h]
  refine ⟨hne, fun e he => ?_⟩
  rw [hne] at he
  exact Except.noConfusion he

/-- Closed witness for C2: a never-registered struct type against the
builtin registry. -/
theorem c2_witness :
    NewAny builtinRegistry (.struct "Video" .fnil)
        = Except.error .unregisteredType ∧
    ∀ e, NewAny builtinRegistry (.struct "Video" .fnil) ≠ Except.ok e :=
  c2_unregistered_type_rejected builtinRegistry (.struct "Video" .fnil) rfl

/-- C3: for the named integer-based alias type `ID` registered via the
Registry, encoding `New(ID(10))` and decoding yields a value whose
concrete type is `ID` — the `aliased "ID"` constructor, whose type name
is `"ID"`, not the builtin integer type — with numeric value 10. -/
theorem c3_alias_fidelity :
    NewAny (RegisterAnyType builtinRegistry (.aliased "ID" (.int 0)))
        (.aliased "ID" (.int 10))
      = Except.ok ⟨"ID", .aliased "ID" (.int 10)⟩ ∧
    decodeAny (RegisterAnyType builtinRegistry (.aliased "ID" (.int 0)))
        (encodeAny ⟨"ID", .aliased "ID" (.int 10)⟩)
      = Except.ok ⟨"ID", .aliased "ID" (.int 10)⟩ ∧
    typeNameOf (.aliased "ID" (.int 10)) = "ID" :=
  ⟨rfl, rfl, rfl⟩

/-- C4: encoding an ordered list of three well-formed envelopes of
different kinds — a string, a struct `A`, a distinct struct `B` — and
decoding the result yields a list of the same length, in the same order,
each element content-equal to its source. -/
theorem c4_sequence_order_preserved (reg : Registry) (e1 e2 e3 : Any)
    (s : String)
    (h1 : WellFormedAny reg e1) (h2 : WellFormedAny reg e2)
    (h3 : WellFormedAny reg e3)
    (hk1 : e1.value = .str s) (hk2 : kindOf e2.value = .struct)
    (hk3 : kindOf e3.value = .struct)
    (hne : e2.typeIdentifier ≠ e3.typeIdentifier) :
    decodeAnyList reg (encodeAnyList [e1, e2, e3]) = Except.ok [e1, e2, e3] := by
  simp only [encodeAnyList, decodeAnyList, List.map_cons, List.map_nil]
  rw [List.mapM_cons, decodeAny_encodeAny reg e1 h1, exceptBind_ok,
    List.mapM_cons, decodeAny_encodeAny reg e2 h2, exceptBind_ok,
    List.mapM_cons, decodeAny_encodeAny reg e3 h3, exceptBind_ok,
    List.mapM_nil]
  rfl

/-- Closed witness for C4: a string envelope followed by envelopes of two
distinct registered struct types. -/
theorem c4_witness :
    decodeAnyList
        (RegisterAnyType
          (RegisterAnyType builtinRegistry (.struct "A" (.fcons "x" (.int 0) .fnil)))
          (.struct "B" (.fcons "u" (.str "") .fnil)))
        (encodeAnyList
          [⟨"string", .str "hello"⟩,
           ⟨"A", .struct "A" (.fcons "x" (.int 7) .fnil)⟩,
           ⟨"B", .struct "B" (.fcons "u" (.str "img") .fnil)⟩])
      = Except.ok
          [⟨"string", .str "hello"⟩,
           ⟨"A", .struct "A" (.fcons "x" (.int 7) .fnil)⟩,
           ⟨"B", .struct "B" (.fcons "u" (.str "img") .fnil)⟩] :=
  c4_sequence_order_preserved
    (RegisterAnyType
      (RegisterAnyType builtinRegistry (.struct "A" (.fcons "x" (.int 0) .fnil)))
      (.struct "B" (.fcons "u" (.str "") .fnil)))
    ⟨"string", .str "hello"⟩
    ⟨"A", .struct "A" (.fcons "x" (.int 7) .fnil)⟩
    ⟨"B", .struct "B" (.fcons "u" (.str "img") .fnil)⟩
    "hello"
    ⟨⟨"string", .primitive, .str ""⟩, rfl, rfl⟩
    ⟨⟨"A", .struct, .struct "A" (.fcons "x" (.int 0) .fnil)⟩, rfl, rfl⟩
    ⟨⟨"B", .struct, .struct "B" (.fcons "u" (.str "") .fnil)⟩, rfl, rfl⟩
    rfl rfl rfl (by simp)

/-- C5: wire input whose type-identifier field does not resolve in the
Registry makes the decoder fail with `UnknownIdentifierError`; it never
yields an envelope result. -/
theorem c5_unknown_identifier_rejected (reg : Registry)
    (fl : List (String × Json)) (id : String)
    (hid : jfind fl "@type" = some (.str id))
    (hreg : descriptorFor reg id = none) :
    decodeAny reg (.obj fl) = Except.error .unknownIdentifier ∧
    ∀ e, decodeAny reg (.obj fl) ≠ Except.ok e := by
  have herr : decodeAny reg (.obj fl) = Except.error .unknownIdentifier := by
    simp [decodeAny, hid, hreg]
  refine ⟨herr, fun e he => ?_⟩
  rw [herr] at he
  exact Except.noConfusion he

/-- Closed witness for C5: an unregistered wire identifier against the
builtin registry. -/
theorem c5_witness :
    decodeAny builtinRegistry (.obj [("@type", .str "Nope"), ("value", .null)])
        = Except.error .unknownIdentifier ∧
    ∀ e, decodeAny builtinRegistry
        (.obj [("@type", .str "Nope"), ("value", .null)]) ≠ Except.ok e :=
  c5_unknown_identifier_rejected builtinRegistry
    [("@type", .str "Nope"), ("value", .null)] "Nope" rfl rfl

/-- C6: content-stability after one cycle — re-encoding a decoded
envelope and decoding again yields exactly the first decode result, so
encode∘decode∘encode∘decode agrees with encode∘decode. -/
theorem c6_reencode_stable (reg : Registry) (j : Json) (e : Any)
    (h : decodeAny reg j = Except.ok e) :
    decodeAny reg (encodeAny e) = Except.ok e := by
  cases j with
  | obj fl =>
    cases hft : jfind fl "@type" with
    | none => simp [decodeAny, hft] at h
    | some jv =>
      cases jv with
      | str id =>
        cases hdp : descriptorFor reg id with
        | none => simp [decodeAny, hft, hdp] at h
        | some d =>
          cases hdw : decodeWith d.sample ((jfind fl "value").getD .null) with
          | error err => simp [decodeAny, hft, hdp, hdw] at h
          | ok v =>
            obtain ⟨tid, vv⟩ := e
            simp only [decodeAny, hft, hdp, hdw, Except.ok.injEq, Any.mk.injEq] at h
            obtain ⟨rfl, rfl⟩ := h
            exact decodeAny_encodeAny reg ⟨id, v⟩
              ⟨d, hdp, conforms_of_decodeWith d.sample _ v hdw⟩
      | null => simp [decodeAny, hft] at h
      | bool b => simp [decodeAny, hft] at h
      | num m => simp [decodeAny, hft] at h
      | arr l => simp [decodeAny, hft] at h
      | obj o => simp [decodeAny, hft] at h
  | null => simp [decodeAny] at h
  | bool b => simp [decodeAny] at h
  | num m => simp [decodeAny] at h
  | str s => simp [decodeAny] at h
  | arr l => simp [decodeAny] at h

/-- Closed witness for C6: the decoded form of a concrete string
envelope re-encodes and re-decodes to itself. -/
theorem c6_witness :
    decodeAny builtinRegistry (encodeAny ⟨"string", .str "hi"⟩)
      = Except.ok ⟨"string", .str "hi"⟩ :=
  c6_reencode_stable builtinRegistry (encodeAny ⟨"string", .str "hi"⟩)
    ⟨"string", .str "hi"⟩ rfl

end Types
